import Mathlib

/-!
# Verification of the GitHub email checker core (`github_checker_api.py`)

Shallow embedding of the three core functions of the repository:

* `parse_entries`  — the entry parser (text → list of (email, raw-line) pairs);
* `check_email`    — the single-item classifier, modelled as a pure function of
  an abstract `PageState` describing what the browser automation observed;
* `check_emails_batch` — the batch loop, modelled over an abstract environment
  (`BatchEnv`) supplying the per-entry page states, callback failures and the
  random jitter draws; its observable effects (bucket contents, callback
  invocations, sleeps, browser teardown) are collected in a `BatchOutcome`.

Python strings are modelled as Lean `String` (whose `data` field is a
`List Char`); `str.strip`, `str.splitlines`, `str.lower` and the `in`
substring test are given explicit executable models below.
-/

namespace GithubChecker

/-- Model of the whitespace class stripped by Python `str.strip()`
(restricted to the ASCII whitespace characters). -/
def pyIsSpace (c : Char) : Bool :=
  c = ' ' || c = '\t' || c = '\n' || c = '\r' || c = '\x0b' || c = '\x0c'

/-- Model of Python `str.strip()` on the character list of a string:
drop whitespace from the front, then from the back. -/
def stripChars (l : List Char) : List Char :=
  List.rdropWhile pyIsSpace (l.dropWhile pyIsSpace)

/-- Model of Python `str.strip()`. -/
def pyStrip (s : String) : String :=
  ⟨stripChars s.data⟩

/-- Characters treated as line breaks by the model of `str.splitlines`
(`\x0b`, `\x0c`, `\x1c`, `\x1d`, `\x1e` are also breaks in Python). -/
def isLineBreak (c : Char) : Bool :=
  c = '\n' || c = '\r' || c = '\x0b' || c = '\x0c' || c = '\x1c' || c = '\x1d' || c = '\x1e'

/-- Worker for the model of Python `str.splitlines`: `acc` holds the
(reversed) characters of the line being read.  A `"\r\n"` pair counts as a
single break; a trailing break does not open an empty final line. -/
def splitlinesAux : List Char → List Char → List (List Char)
  | [], acc => if acc.isEmpty then [] else [acc.reverse]
  | '\r' :: '\n' :: rest, acc => acc.reverse :: splitlinesAux rest []
  | c :: rest, acc =>
    if isLineBreak c then acc.reverse :: splitlinesAux rest []
    else splitlinesAux rest (c :: acc)

/-- Model of Python `str.splitlines` on character lists. -/
def splitlines (l : List Char) : List (List Char) :=
  splitlinesAux l []

/-- ASCII lower-casing of one character (model of `str.lower` per character). -/
def lowerChar (c : Char) : Char :=
  if 'A' ≤ c ∧ c ≤ 'Z' then Char.ofNat (c.toNat + 32) else c

/-- Model of Python `str.lower()` (ASCII letters only). -/
def pyLower (s : String) : String :=
  ⟨s.data.map lowerChar⟩

/-- `containsSub sub l` models the Python substring test `sub in l`:
`sub` occurs contiguously in `l`. -/
def containsSub (sub : List Char) : List Char → Bool
  | [] => sub.isEmpty
  | c :: rest => sub.isPrefixOf (c :: rest) || containsSub sub rest

/-!
## The entry parser (`parse_entries`, `github_checker_api.py` lines 73–93)

```python
for line in text.strip().splitlines():
    line = line.strip()
    if not line or line.startswith("#"):
        continue
    if ":" in line:
        email = line.split(":")[0].strip()
    else:
        email = line.strip()
    if "@" in email:
        entries.append((email, line))
```
-/

/-- One iteration of the parser loop: `some (email, line)` when the line is
accepted, `none` when it is skipped. -/
def parseLineL (line : List Char) : Option (List Char × List Char) :=
  let l := stripChars line
  if l.isEmpty then none
  else if l.head? = some '#' then none
  else
    let email := if l.contains ':' then stripChars (l.takeWhile (fun c => !(c == ':'))) else stripChars l
    if email.contains '@' then some (email, l) else none

/-- `parse_entries` on character lists. -/
def parse_entriesL (text : List Char) : List (List Char × List Char) :=
  (splitlines (stripChars text)).filterMap parseLineL

/-- Model of `parse_entries` (`github_checker_api.py` lines 73–93). -/
def parse_entries (text : String) : List (String × String) :=
  (parse_entriesL text.data).map (fun p => (⟨p.1⟩, ⟨p.2⟩))

/-- Model of `"\n".join` on character lists. -/
def joinLinesL : List (List Char) → List Char
  | [] => []
  | [l] => l
  | l :: l2 :: rest => l ++ '\n' :: joinLinesL (l2 :: rest)

/-- Model of `"\n".join(lines)` for strings. -/
def joinLines (ls : List String) : String :=
  ⟨joinLinesL (ls.map String.data)⟩

/-!
## The single-item classifier (`check_email`, `github_checker_api.py` lines 15–70)

The browser interaction is abstracted into a `PageState` describing what the
automation session observed for one address; `check_email` becomes a pure
function of that state, with the same decision order as the code.
-/

/-- Abstract observation of one signup-page probe.

* `failNav` — an exception occurred during navigation, element lookup,
  typing or `page.content()` (caught by the outer `try` → `"error"`);
* `content` — the page HTML returned by `page.content()`;
* `failQuery` — `query_selector_all` raised (caught by the outer `try`);
* `successEl` — the success-indicator selector list was non-empty;
* `pwdRaises` — the password-field visibility check raised (inner `try`:
  ignored, classification continues);
* `pwdVisible` — the password field was visible. -/
structure PageState where
  failNav : Bool
  content : String
  failQuery : Bool
  successEl : Bool
  pwdRaises : Bool
  pwdVisible : Bool
deriving Repr, DecidableEq

/-- The registered-text test of `check_email` (on the lower-cased content). -/
def registeredText (content : String) : Bool :=
  containsSub "already associated".data (pyLower content).data ||
  containsSub "already been taken".data (pyLower content).data

/-- The invalid-text test of `check_email` (on the lower-cased content). -/
def invalidText (content : String) : Bool :=
  containsSub "not a valid email".data (pyLower content).data ||
  containsSub "not valid".data (pyLower content).data

/-- Model of `check_email` (`github_checker_api.py` lines 15–70): the code's
decision chain over the abstract page state. -/
def check_email (s : PageState) : String :=
  if s.failNav then "error"
  else if registeredText s.content then "registered"
  else if s.failQuery then "error"
  else if s.successEl then "available"
  else if !s.pwdRaises && s.pwdVisible then "available"
  else if invalidText s.content then "invalid"
  else "error"

/-!
## The batch checker (`check_emails_batch`, `github_checker_api.py` lines 96–162)

The loop is modelled over a `BatchEnv` supplying, for each (0-based) entry
index, the page state observed by `check_email`, whether the progress
callback raises there, and the jitter drawn by `random.uniform(0.5, 1.5)`.
Delays are modelled as rationals.
-/

/-- The `results` dictionary: four ordered buckets of raw lines. -/
structure Results where
  registered : List String
  available : List String
  invalid : List String
  error : List String
deriving Repr, DecidableEq

/-- The initial `results` dictionary (all four buckets empty). -/
def emptyResults : Results :=
  ⟨[], [], [], []⟩

/-- One bucket update of the loop body:
`if result in results: results[result].append(full_line)
 else: results["error"].append(full_line)`. -/
def addResult (r : Results) (label line : String) : Results :=
  if label = "registered" then { r with registered := r.registered ++ [line] }
  else if label = "available" then { r with available := r.available ++ [line] }
  else if label = "invalid" then { r with invalid := r.invalid ++ [line] }
  else { r with error := r.error ++ [line] }

/-- Environment of one batch run.

* `launchOk` — Playwright start, browser launch, context and page creation
  all succeed (these happen before the `try` block);
* `pages idx` — the page state `check_email` observes for the entry at
  0-based index `idx`;
* `cbFails idx` — the progress callback raises on that entry;
* `jitter idx` — the value drawn by `random.uniform(0.5, 1.5)` after that
  entry. -/
structure BatchEnv where
  launchOk : Bool
  pages : Nat → PageState
  cbFails : Nat → Bool
  jitter : Nat → ℚ

/-- The classification label of the entry at index `idx`. -/
def entryLabel (env : BatchEnv) (idx : Nat) : String :=
  check_email (env.pages idx)

/-- Observable outcome of the per-entry loop: final buckets, the list of
progress-callback invocations `(i, total, email, result)`, the list of sleep
durations, and whether an exception escaped the loop (to the `except`
handler). -/
structure LoopOut where
  results : Results
  calls : List (Nat × Nat × String × String)
  sleeps : List ℚ
  raised : Bool
deriving Repr, DecidableEq

/-- The `for i, (email, full_line) in enumerate(entries, 1)` loop:
classify, append to a bucket, invoke the callback (a raising callback
aborts the loop), and sleep `delay + jitter` unless this was the last
entry. `idx` is the 0-based index of the first remaining entry. -/
def batchLoop (env : BatchEnv) (hasCb : Bool) (delay : ℚ) (total : Nat) :
    Nat → List (String × String) → Results → LoopOut
  | _, [], acc => ⟨acc, [], [], false⟩
  | idx, (email, line) :: rest, acc =>
    let label := entryLabel env idx
    let acc2 := addResult acc label line
    if hasCb && env.cbFails idx then
      ⟨acc2, [(idx + 1, total, email, label)], [], true⟩
    else
      let out := batchLoop env hasCb delay total (idx + 1) rest acc2
      { results := out.results
        calls := (if hasCb then [(idx + 1, total, email, label)] else []) ++ out.calls
        sleeps := (if idx + 1 < total then [delay + env.jitter idx] else []) ++ out.sleeps
        raised := out.raised }

/-- Observable outcome of a whole `check_emails_batch` call that returned
normally.  `browserClosed` records that the `finally: await browser.close()`
teardown ran; `loopRaised` records whether the `except` handler fired. -/
structure BatchOutcome where
  results : Results
  calls : List (Nat × Nat × String × String)
  sleeps : List ℚ
  loopRaised : Bool
  browserClosed : Bool
deriving Repr, DecidableEq

/-- Model of `check_emails_batch` (`github_checker_api.py` lines 96–162).
Session initialization (lines 115–135) happens before the `try` block, so
its failure propagates (`Except.error`).  Once the loop starts, the
`try/except/finally` guarantees a normal return with the browser closed. -/
def check_emails_batch (env : BatchEnv) (entries : List (String × String))
    (hasCb : Bool) (delay : ℚ) : Except Unit BatchOutcome :=
  if env.launchOk then
    let out := batchLoop env hasCb delay entries.length 0 entries emptyResults
    Except.ok ⟨out.results, out.calls, out.sleeps, out.raised, true⟩
  else
    Except.error ()

/-!
## Specification-side functions (for comparison with the model)
-/

/-- The bucket key an arbitrary label is filed under: itself when it is one
of the four known keys, `"error"` otherwise (`result in results` check). -/
def foldLabel (label : String) : String :=
  if label = "registered" || label = "available" || label = "invalid" || label = "error"
  then label else "error"

/-- The expected contents of bucket `L` for the entries from index `idx`
on: the raw lines of exactly those entries whose label is filed under `L`,
in input order. -/
def bucketFrom (env : BatchEnv) (L : String) : Nat → List (String × String) → List String
  | _, [] => []
  | idx, (_, line) :: rest =>
    (if foldLabel (entryLabel env idx) = L then [line] else []) ++ bucketFrom env L (idx + 1) rest

/-- The expected sequence of progress-callback invocations for the entries
from index `idx` on. -/
def callsFrom (env : BatchEnv) (total : Nat) : Nat → List (String × String) → List (Nat × Nat × String × String)
  | _, [] => []
  | idx, (email, _) :: rest =>
    (idx + 1, total, email, entryLabel env idx) :: callsFrom env total (idx + 1) rest

/-- The expected sequence of sleep durations for the entries from index
`idx` on: one sleep after every entry that is not the last. -/
def sleepsFrom (env : BatchEnv) (delay : ℚ) (total : Nat) : Nat → List (String × String) → List ℚ
  | _, [] => []
  | idx, _ :: rest =>
    (if idx + 1 < total then [delay + env.jitter idx] else []) ++ sleepsFrom env delay total (idx + 1) rest

/-- Total number of raw lines across the four buckets. -/
def bucketsTotal (r : Results) : Nat :=
  r.registered.length + r.available.length + r.invalid.length + r.error.length

/-- The parser of §4.1 of the specification, written from the spec's words:
split on line boundaries, trim, skip empty lines and lines whose first
non-whitespace character is `#`; the candidate address is everything before
the first `:` (the whole trimmed line when there is no `:`); accept iff the
candidate contains `@`, keeping the full trimmed line as the record. -/
def spec_parseLine (line : List Char) : Option (List Char × List Char) :=
  let l := stripChars line
  if l = [] then none
  else if (l.dropWhile pyIsSpace).head? = some '#' then none
  else
    let cand := stripChars (l.takeWhile (fun c => !(c == ':')))
    if cand.contains '@' then some (cand, l) else none

/-- The §4.1 parser over a whole text. -/
def spec_parse (text : String) : List (String × String) :=
  ((splitlines (stripChars text.data)).filterMap spec_parseLine).map (fun p => (⟨p.1⟩, ⟨p.2⟩))

/-!
## Concrete inputs used by witnesses and counterexamples
-/

/-- A page state showing the registered text together with a success
indicator, a visible password field and invalid-email text. -/
def pageRegistered : PageState :=
  ⟨false, "This Email is Already Been Taken, Not Valid", false, true, false, true⟩

/-- A page state with only a success indicator. -/
def pageSuccess : PageState :=
  ⟨false, "fine", false, true, false, false⟩

/-- A page state with nothing observed. -/
def pageBlank : PageState :=
  ⟨false, "", false, false, false, false⟩

/-- A page state where navigation raised, although the page text would have
matched the registered phrases. -/
def pageNavFail : PageState :=
  ⟨true, "already been taken", false, true, false, true⟩

/-- A batch environment whose session initialization fails. -/
def envLaunchFail : BatchEnv :=
  ⟨false, fun _ => pageBlank, fun _ => false, fun _ => 1⟩

/-- A batch environment that initializes and never fails. -/
def envSmooth : BatchEnv :=
  ⟨true, fun _ => pageRegistered, fun _ => false, fun _ => 1⟩

/-- A batch environment whose progress callback raises on every entry. -/
def envCbFail : BatchEnv :=
  ⟨true, fun _ => pageSuccess, fun _ => true, fun _ => 1⟩

/-!
## Helper lemmas about the string primitives
-/

theorem head?_dropWhile_false {p : Char → Bool} {c : Char} {l : List Char}
    (h : (l.dropWhile p).head? = some c) : p c = false := by
  induction l with
  | nil => simp [List.dropWhile] at h
  | cons a t ih =>
    rw [List.dropWhile_cons] at h
    by_cases hp : p a
    · rw [if_pos hp] at h
      exact ih h
    · rw [if_neg hp] at h
      have hac : a = c := by simpa using h
      rw [← hac]
      simpa using hp

theorem stripChars_head_not_space {l : List Char} {c : Char}
    (h : (stripChars l).head? = some c) : pyIsSpace c = false := by
  unfold stripChars at h
  obtain ⟨t, ht⟩ := List.rdropWhile_prefix pyIsSpace (l.dropWhile pyIsSpace)
  have hne : List.rdropWhile pyIsSpace (l.dropWhile pyIsSpace) ≠ [] := by
    intro hnil
    rw [hnil] at h
    exact Option.noConfusion h
  have hd : (l.dropWhile pyIsSpace).head? = some c := by
    rw [← ht, List.head?_append_of_ne_nil _ hne, h]
  exact head?_dropWhile_false hd

theorem stripChars_getLast_not_space {l : List Char} {c : Char}
    (h : (stripChars l).getLast? = some c) : pyIsSpace c = false := by
  unfold stripChars at h
  have hne : List.rdropWhile pyIsSpace (l.dropWhile pyIsSpace) ≠ [] := by
    intro hnil
    rw [hnil] at h
    exact Option.noConfusion h
  have hlast := List.rdropWhile_last_not pyIsSpace (l.dropWhile pyIsSpace) hne
  rw [List.getLast?_eq_getLast _ hne] at h
  have hc : (List.rdropWhile pyIsSpace (l.dropWhile pyIsSpace)).getLast hne = c :=
    Option.some_injective _ h
  rw [hc] at hlast
  simpa using hlast

theorem dropWhile_stripChars (l : List Char) :
    (stripChars l).dropWhile pyIsSpace = stripChars l := by
  cases hm : stripChars l with
  | nil => simp
  | cons a t =>
    have ha : pyIsSpace a = false := by
      apply stripChars_head_not_space (l := l)
      rw [hm]; rfl
    simp [List.dropWhile_cons, ha]

theorem stripChars_idem (l : List Char) : stripChars (stripChars l) = stripChars l := by
  show List.rdropWhile pyIsSpace ((stripChars l).dropWhile pyIsSpace) = stripChars l
  rw [dropWhile_stripChars]
  unfold stripChars
  exact List.rdropWhile_idempotent pyIsSpace _

theorem stripChars_sublist (l : List Char) : (stripChars l).Sublist l := by
  unfold stripChars
  exact ((List.rdropWhile_prefix _ _).sublist).trans ((List.dropWhile_suffix _).sublist)

theorem splitlinesAux_no_break :
    ∀ (l acc : List Char), (∀ c ∈ acc, isLineBreak c = false) →
    ∀ line ∈ splitlinesAux l acc, ∀ c ∈ line, isLineBreak c = false := by
  intro l acc
  induction l, acc using splitlinesAux.induct with
  | case1 acc he =>
    intro hacc line hline c hc
    rw [splitlinesAux.eq_1, if_pos he] at hline
    simp at hline
  | case2 acc he =>
    intro hacc line hline c hc
    rw [splitlinesAux.eq_1, if_neg he] at hline
    rw [List.mem_singleton] at hline
    subst hline
    exact hacc c (by simpa using hc)
  | case3 rest acc ih =>
    intro hacc line hline c hc
    rw [splitlinesAux.eq_2] at hline
    rcases List.mem_cons.mp hline with h | h
    · subst h
      exact hacc c (by simpa using hc)
    · exact ih (by simp) line h c hc
  | case4 a rest acc hne hbr ih =>
    intro hacc line hline c hc
    rw [splitlinesAux.eq_3 acc a rest hne, if_pos hbr] at hline
    rcases List.mem_cons.mp hline with h | h
    · subst h
      exact hacc c (by simpa using hc)
    · exact ih (by simp) line h c hc
  | case5 a rest acc hne hbr ih =>
    intro hacc line hline c hc
    rw [splitlinesAux.eq_3 acc a rest hne, if_neg hbr] at hline
    refine ih ?_ line hline c hc
    intro d hd
    rcases List.mem_cons.mp hd with h | h
    · subst h
      simpa using hbr
    · exact hacc d h

theorem splitlines_no_break {l : List Char} :
    ∀ line ∈ splitlines l, ∀ c ∈ line, isLineBreak c = false :=
  splitlinesAux_no_break l [] (by simp)

theorem splitlinesAux_append {r : List Char} (hr : ∀ c ∈ r, isLineBreak c = false) :
    ∀ (m acc : List Char), splitlinesAux (r ++ m) acc = splitlinesAux m (r.reverse ++ acc) := by
  induction r with
  | nil => simp
  | cons c r' ih =>
    intro m acc
    have hc : isLineBreak c = false := hr c (by simp)
    have hne : ∀ (rest1 : List Char), c = '\r' → r' ++ m = '\n' :: rest1 → False := by
      intro rest1 hcr _
      rw [hcr] at hc
      simp [isLineBreak] at hc
    rw [List.cons_append, splitlinesAux.eq_3 acc c (r' ++ m) hne, if_neg (by simp [hc])]
    rw [ih (fun d hd => hr d (by simp [hd])) m (c :: acc)]
    congr 1
    simp

theorem splitlines_append_newline {r m : List Char}
    (hr : ∀ c ∈ r, isLineBreak c = false) :
    splitlines (r ++ '\n' :: m) = r :: splitlines m := by
  unfold splitlines
  rw [splitlinesAux_append hr ('\n' :: m) []]
  have hne : ∀ (rest1 : List Char), '\n' = '\r' → m = '\n' :: rest1 → False := by
    intro _ h _
    exact absurd h (by decide)
  rw [splitlinesAux.eq_3 (r.reverse ++ []) '\n' m hne, if_pos (by simp [isLineBreak])]
  simp

theorem splitlines_of_no_break {r : List Char}
    (hr : ∀ c ∈ r, isLineBreak c = false) (hne : r ≠ []) :
    splitlines r = [r] := by
  unfold splitlines
  have h := splitlinesAux_append hr [] []
  rw [List.append_nil] at h
  rw [h, splitlinesAux.eq_1]
  rw [if_neg (by simpa using hne)]
  simp

theorem joinLinesL_cons_ne_nil {r : List Char} {rest : List (List Char)}
    (h : r ≠ []) : joinLinesL (r :: rest) ≠ [] := by
  cases rest with
  | nil => simpa [joinLinesL] using h
  | cons r2 rest' => simp [joinLinesL]

theorem splitlines_joinLinesL :
    ∀ (rs : List (List Char)),
    (∀ r ∈ rs, r ≠ [] ∧ ∀ c ∈ r, isLineBreak c = false) →
    splitlines (joinLinesL rs) = rs := by
  intro rs
  induction rs with
  | nil =>
    intro _
    simp [joinLinesL, splitlines, splitlinesAux]
  | cons r rest ih =>
    intro h
    cases rest with
    | nil =>
      show splitlines r = [r]
      exact splitlines_of_no_break (h r (by simp)).2 (h r (by simp)).1
    | cons r2 rest' =>
      show splitlines (r ++ '\n' :: joinLinesL (r2 :: rest')) = r :: r2 :: rest'
      rw [splitlines_append_newline (h r (by simp)).2]
      rw [ih (fun x hx => h x (by simp [hx]))]

theorem stripChars_eq_self_of_ends {l : List Char}
    (hh : ∀ c, l.head? = some c → pyIsSpace c = false)
    (hl : ∀ c, l.getLast? = some c → pyIsSpace c = false) :
    stripChars l = l := by
  unfold stripChars
  have hdrop : l.dropWhile pyIsSpace = l := by
    cases l with
    | nil => rfl
    | cons a t =>
      have := hh a rfl
      simp [List.dropWhile_cons, this]
  rw [hdrop]
  rw [List.rdropWhile_eq_self_iff]
  intro hne
  have := hl (l.getLast hne) (List.getLast?_eq_getLast l hne)
  simp [this]

theorem joinLinesL_head_not_space {rs : List (List Char)}
    (h : ∀ r ∈ rs, r ≠ [] ∧ ∀ c, r.head? = some c → pyIsSpace c = false) :
    ∀ c, (joinLinesL rs).head? = some c → pyIsSpace c = false := by
  intro c hc
  cases rs with
  | nil => simp [joinLinesL] at hc
  | cons r rest =>
    have hr := h r (by simp)
    cases rest with
    | nil => exact hr.2 c (by simpa [joinLinesL] using hc)
    | cons r2 rest' =>
      have : joinLinesL (r :: r2 :: rest') = r ++ '\n' :: joinLinesL (r2 :: rest') := rfl
      rw [this, List.head?_append_of_ne_nil _ hr.1] at hc
      exact hr.2 c hc

theorem joinLinesL_getLast_not_space :
    ∀ (rs : List (List Char)),
    (∀ r ∈ rs, r ≠ [] ∧ ∀ c, r.getLast? = some c → pyIsSpace c = false) →
    ∀ c, (joinLinesL rs).getLast? = some c → pyIsSpace c = false := by
  intro rs
  induction rs with
  | nil =>
    intro _ c hc
    simp [joinLinesL] at hc
  | cons r rest ih =>
    intro h c hc
    cases rest with
    | nil => exact (h r (by simp)).2 c (by simpa [joinLinesL] using hc)
    | cons r2 rest' =>
      have hj : joinLinesL (r :: r2 :: rest') = r ++ '\n' :: joinLinesL (r2 :: rest') := rfl
      rw [hj, List.getLast?_append_of_ne_nil _ (by simp)] at hc
      have hm : joinLinesL (r2 :: rest') ≠ [] := joinLinesL_cons_ne_nil (h r2 (by simp)).1
      have hsplit : ('\n' :: joinLinesL (r2 :: rest')) = ['\n'] ++ joinLinesL (r2 :: rest') := rfl
      rw [hsplit, List.getLast?_append_of_ne_nil _ hm] at hc
      exact ih (fun x hx => h x (by simp [hx])) c hc

/-!
## Parser lemmas
-/

theorem parseLineL_stripChars (line : List Char) :
    parseLineL (stripChars line) = parseLineL line := by
  unfold parseLineL
  rw [stripChars_idem]

theorem parseLineL_some_props {line e r : List Char}
    (h : parseLineL line = some (e, r)) : r = stripChars line ∧ r ≠ [] := by
  simp only [parseLineL] at h
  split_ifs at h with h1 h2 h3
  all_goals
    rw [Option.some_inj, Prod.mk.injEq] at h
    refine ⟨h.2.symm, ?_⟩
    rw [← h.2]
    simpa using h1

theorem parseLineL_self {line e r : List Char}
    (h : parseLineL line = some (e, r)) : parseLineL r = some (e, r) := by
  obtain ⟨hr, _⟩ := parseLineL_some_props h
  have heq : parseLineL r = parseLineL line := by
    rw [hr, parseLineL_stripChars]
  rw [heq]
  exact h

theorem filterMap_parseLineL_self :
    ∀ (ps : List (List Char × List Char)), (∀ p ∈ ps, parseLineL p.2 = some p) →
    (ps.map Prod.snd).filterMap parseLineL = ps := by
  intro ps
  induction ps with
  | nil => intro _; rfl
  | cons p rest ih =>
    intro h
    simp only [List.map_cons, List.filterMap_cons, h p (by simp)]
    rw [ih (fun q hq => h q (by simp [hq]))]

theorem parse_entriesL_mem {t : List Char} {p : List Char × List Char}
    (hp : p ∈ parse_entriesL t) :
    parseLineL p.2 = some p ∧ p.2 ≠ [] ∧ (∀ c ∈ p.2, isLineBreak c = false) ∧
    (∀ c, p.2.head? = some c → pyIsSpace c = false) ∧
    (∀ c, p.2.getLast? = some c → pyIsSpace c = false) := by
  unfold parse_entriesL at hp
  rw [List.mem_filterMap] at hp
  obtain ⟨line, hline, hsome⟩ := hp
  have hsome' : parseLineL line = some (p.1, p.2) := by simpa using hsome
  obtain ⟨hr, hne⟩ := parseLineL_some_props hsome'
  have hbreak : ∀ c ∈ p.2, isLineBreak c = false := by
    intro c hc
    refine splitlines_no_break line hline c ?_
    rw [hr] at hc
    exact (stripChars_sublist line).subset hc
  refine ⟨?_, hne, hbreak, ?_, ?_⟩
  · have := parseLineL_self hsome'
    simpa using this
  · intro c hc
    rw [hr] at hc
    exact stripChars_head_not_space hc
  · intro c hc
    rw [hr] at hc
    exact stripChars_getLast_not_space hc

theorem parse_entriesL_retraction (t : List Char) :
    parse_entriesL (joinLinesL ((parse_entriesL t).map Prod.snd)) = parse_entriesL t := by
  have hmem : ∀ p ∈ parse_entriesL t,
      parseLineL p.2 = some p ∧ p.2 ≠ [] ∧ (∀ c ∈ p.2, isLineBreak c = false) ∧
      (∀ c, p.2.head? = some c → pyIsSpace c = false) ∧
      (∀ c, p.2.getLast? = some c → pyIsSpace c = false) :=
    fun p hp => parse_entriesL_mem hp
  have hsnd : ∀ r ∈ (parse_entriesL t).map Prod.snd,
      r ≠ [] ∧ (∀ c ∈ r, isLineBreak c = false) ∧
      (∀ c, r.head? = some c → pyIsSpace c = false) ∧
      (∀ c, r.getLast? = some c → pyIsSpace c = false) := by
    intro r hrm
    rw [List.mem_map] at hrm
    obtain ⟨p, hp, hps⟩ := hrm
    obtain ⟨_, h1, h2, h3, h4⟩ := hmem p hp
    rw [← hps]
    exact ⟨h1, h2, h3, h4⟩
  have hstrip : stripChars (joinLinesL ((parse_entriesL t).map Prod.snd)) =
      joinLinesL ((parse_entriesL t).map Prod.snd) := by
    refine stripChars_eq_self_of_ends ?_ ?_
    · exact joinLinesL_head_not_space (fun r hr => ⟨(hsnd r hr).1, (hsnd r hr).2.2.1⟩)
    · exact joinLinesL_getLast_not_space _ (fun r hr => ⟨(hsnd r hr).1, (hsnd r hr).2.2.2⟩)
  have hsplit : splitlines (joinLinesL ((parse_entriesL t).map Prod.snd)) =
      (parse_entriesL t).map Prod.snd :=
    splitlines_joinLinesL _ (fun r hr => ⟨(hsnd r hr).1, (hsnd r hr).2.1⟩)
  show (splitlines (stripChars _)).filterMap parseLineL = parse_entriesL t
  rw [hstrip, hsplit]
  exact filterMap_parseLineL_self _ (fun p hp => (hmem p hp).1)

theorem parseLineL_eq_spec (line : List Char) : parseLineL line = spec_parseLine line := by
  simp only [parseLineL, spec_parseLine]
  rw [dropWhile_stripChars]
  by_cases he : stripChars line = []
  · simp [he]
  · rw [if_neg (by simpa using he), if_neg he]
    by_cases hhash : (stripChars line).head? = some '#'
    · rw [if_pos hhash, if_pos hhash]
    · rw [if_neg hhash, if_neg hhash]
      by_cases hc : (stripChars line).contains ':'
      · rw [if_pos hc]
      · rw [if_neg hc]
        have htake : (stripChars line).takeWhile (fun c => !(c == ':')) = stripChars line := by
          rw [List.takeWhile_eq_self_iff]
          intro x hx
          simp only [Bool.not_eq_true', beq_eq_false_iff_ne]
          intro hxc
          subst hxc
          exact hc (by simpa using hx)
        rw [htake]

theorem parse_entries_eq_spec (t : String) : parse_entries t = spec_parse t := by
  unfold parse_entries spec_parse parse_entriesL
  congr 1
  apply List.filterMap_congr
  intro line _
  exact parseLineL_eq_spec line

/-!
## Batch-loop lemmas
-/

theorem addResult_registered (r : Results) (label line : String) :
    (addResult r label line).registered =
      r.registered ++ (if foldLabel label = "registered" then [line] else []) := by
  unfold addResult foldLabel
  split_ifs <;> simp_all

theorem addResult_available (r : Results) (label line : String) :
    (addResult r label line).available =
      r.available ++ (if foldLabel label = "available" then [line] else []) := by
  unfold addResult foldLabel
  split_ifs <;> simp_all

theorem addResult_invalid (r : Results) (label line : String) :
    (addResult r label line).invalid =
      r.invalid ++ (if foldLabel label = "invalid" then [line] else []) := by
  unfold addResult foldLabel
  split_ifs <;> simp_all

theorem addResult_error (r : Results) (label line : String) :
    (addResult r label line).error =
      r.error ++ (if foldLabel label = "error" then [line] else []) := by
  unfold addResult foldLabel
  split_ifs <;> simp_all

theorem bucketsTotal_addResult (r : Results) (label line : String) :
    bucketsTotal (addResult r label line) = bucketsTotal r + 1 := by
  unfold bucketsTotal addResult
  split_ifs <;> simp <;> omega

theorem batchLoop_ok (env : BatchEnv) (hasCb : Bool) (delay : ℚ) (total : Nat) :
    ∀ (entries : List (String × String)) (idx : Nat) (acc : Results),
    (∀ k, idx ≤ k → k < idx + entries.length → (hasCb && env.cbFails k) = false) →
    batchLoop env hasCb delay total idx entries acc =
      ⟨⟨acc.registered ++ bucketFrom env "registered" idx entries,
        acc.available ++ bucketFrom env "available" idx entries,
        acc.invalid ++ bucketFrom env "invalid" idx entries,
        acc.error ++ bucketFrom env "error" idx entries⟩,
       if hasCb then callsFrom env total idx entries else [],
       sleepsFrom env delay total idx entries,
       false⟩ := by
  intro entries
  induction entries with
  | nil =>
    intro idx acc h
    simp [batchLoop, bucketFrom, callsFrom, sleepsFrom]
  | cons p rest ih =>
    intro idx acc h
    obtain ⟨email, line⟩ := p
    have hcb : (hasCb && env.cbFails idx) = false :=
      h idx (Nat.le_refl idx) (by simp)
    simp only [batchLoop, hcb, Bool.false_eq_true, if_false]
    rw [ih (idx + 1) (addResult acc (entryLabel env idx) line)
      (fun k hk1 hk2 => h k (Nat.le_of_succ_le hk1) (by simpa [Nat.add_comm, Nat.add_left_comm, Nat.add_assoc] using hk2))]
    simp only [bucketFrom, callsFrom, sleepsFrom]
    cases hasCb <;>
      simp [addResult_registered, addResult_available, addResult_invalid, addResult_error,
        List.append_assoc]

theorem foldLabel_cases (label : String) :
    foldLabel label = "registered" ∨ foldLabel label = "available" ∨
    foldLabel label = "invalid" ∨ foldLabel label = "error" := by
  unfold foldLabel
  split_ifs with h
  · simp only [Bool.or_eq_true, decide_eq_true_eq] at h
    rcases h with (((h | h) | h) | h) <;> simp [h]
  · simp

theorem bucketFrom_length_sum (env : BatchEnv) :
    ∀ (entries : List (String × String)) (idx : Nat),
    (bucketFrom env "registered" idx entries).length +
    (bucketFrom env "available" idx entries).length +
    (bucketFrom env "invalid" idx entries).length +
    (bucketFrom env "error" idx entries).length = entries.length := by
  intro entries
  induction entries with
  | nil => intro idx; simp [bucketFrom]
  | cons p rest ih =>
    intro idx
    obtain ⟨e, l⟩ := p
    simp only [bucketFrom, List.length_append, List.length_cons]
    have h4 := foldLabel_cases (entryLabel env idx)
    have hrest := ih (idx + 1)
    rcases h4 with h | h | h | h <;> rw [h] <;> simp <;> omega

theorem callsFrom_map_fst (env : BatchEnv) (total : Nat) :
    ∀ (entries : List (String × String)) (idx : Nat),
    (callsFrom env total idx entries).map (fun c => c.1) =
      List.range' (idx + 1) entries.length := by
  intro entries
  induction entries with
  | nil => intro idx; simp [callsFrom]
  | cons p rest ih =>
    intro idx
    obtain ⟨e, l⟩ := p
    simp only [callsFrom, List.map_cons, List.length_cons, List.range'_succ]
    rw [ih (idx + 1)]

theorem callsFrom_length (env : BatchEnv) (total : Nat) :
    ∀ (entries : List (String × String)) (idx : Nat),
    (callsFrom env total idx entries).length = entries.length := by
  intro entries
  induction entries with
  | nil => intro idx; rfl
  | cons p rest ih =>
    intro idx
    obtain ⟨e, l⟩ := p
    simp only [callsFrom, List.length_cons]
    rw [ih (idx + 1)]

theorem sleepsFrom_mem (env : BatchEnv) (delay : ℚ) (total : Nat) :
    ∀ (entries : List (String × String)) (idx : Nat) (s : ℚ),
    s ∈ sleepsFrom env delay total idx entries → ∃ k, s = delay + env.jitter k := by
  intro entries
  induction entries with
  | nil => intro idx s hs; simp [sleepsFrom] at hs
  | cons p rest ih =>
    intro idx s hs
    simp only [sleepsFrom] at hs
    rw [List.mem_append] at hs
    rcases hs with hs | hs
    · by_cases hlt : idx + 1 < total
      · rw [if_pos hlt, List.mem_singleton] at hs
        exact ⟨idx, hs⟩
      · rw [if_neg hlt] at hs
        simp at hs
    · exact ih (idx + 1) s hs

theorem sleepsFrom_length (env : BatchEnv) (delay : ℚ) :
    ∀ (entries : List (String × String)) (idx total : Nat),
    total = idx + entries.length →
    (sleepsFrom env delay total idx entries).length = entries.length - 1 := by
  intro entries
  induction entries with
  | nil => intro idx total _; rfl
  | cons p rest ih =>
    intro idx total htot
    cases rest with
    | nil =>
      have : ¬ idx + 1 < total := by
        simp only [List.length_cons, List.length_nil] at htot
        omega
      simp [sleepsFrom, this]
    | cons q rest' =>
      have hlt : idx + 1 < total := by
        simp only [List.length_cons] at htot
        omega
      have hih := ih (idx + 1) total (by simp at htot ⊢; omega)
      have hstep : sleepsFrom env delay total idx (p :: q :: rest') =
          (if idx + 1 < total then [delay + env.jitter idx] else []) ++
            sleepsFrom env delay total (idx + 1) (q :: rest') := rfl
      rw [hstep, if_pos hlt, List.length_append, hih]
      simp
      omega

theorem parse_entries_snd_data (t : String) :
    ((parse_entries t).map Prod.snd).map String.data = (parse_entriesL t.data).map Prod.snd := by
  unfold parse_entries
  rw [List.map_map, List.map_map]
  rfl

theorem check_emails_batch_ok (env : BatchEnv) (entries : List (String × String))
    (hasCb : Bool) (delay : ℚ) (h : env.launchOk = true) :
    check_emails_batch env entries hasCb delay =
      Except.ok ⟨(batchLoop env hasCb delay entries.length 0 entries emptyResults).results,
        (batchLoop env hasCb delay entries.length 0 entries emptyResults).calls,
        (batchLoop env hasCb delay entries.length 0 entries emptyResults).sleeps,
        (batchLoop env hasCb delay entries.length 0 entries emptyResults).raised, true⟩ := by
  simp [check_emails_batch, h]

/-!
## Claim theorems
-/

/-- C3: `check_email` classifies by the code's fixed priority.  Whenever the
registered phrases occur in the (case-insensitively lowered) page text and no
exception preempted the text check, the result is `"registered"` — with no
assumption on the success indicator, the password field or the invalid text,
so it wins even when those are simultaneously present.  Otherwise the
success-indicator check decides before the password-field check, which
decides before the invalid-text check, and the fallback is `"error"`. -/
theorem C3_check_email_priority :
    (∀ s : PageState, s.failNav = false → registeredText s.content = true →
      check_email s = "registered") ∧
    (∀ s : PageState, s.failNav = false → registeredText s.content = false →
      s.failQuery = false → s.successEl = true → check_email s = "available") ∧
    (∀ s : PageState, s.failNav = false → registeredText s.content = false →
      s.failQuery = false → s.successEl = false → s.pwdRaises = false →
      s.pwdVisible = true → check_email s = "available") ∧
    (∀ s : PageState, s.failNav = false → registeredText s.content = false →
      s.failQuery = false → s.successEl = false →
      (s.pwdRaises = true ∨ s.pwdVisible = false) → invalidText s.content = true →
      check_email s = "invalid") ∧
    (∀ s : PageState, s.failNav = false → registeredText s.content = false →
      s.failQuery = false → s.successEl = false →
      (s.pwdRaises = true ∨ s.pwdVisible = false) → invalidText s.content = false →
      check_email s = "error") := by
  refine ⟨?_, ?_, ?_, ?_, ?_⟩
  · intro s h1 h2
    simp [check_email, h1, h2]
  · intro s h1 h2 h3 h4
    simp [check_email, h1, h2, h3, h4]
  · intro s h1 h2 h3 h4 h5 h6
    simp [check_email, h1, h2, h3, h4, h5, h6]
  · intro s h1 h2 h3 h4 h5 h6
    rcases h5 with h5 | h5 <;> simp [check_email, h1, h2, h3, h4, h5, h6]
  · intro s h1 h2 h3 h4 h5 h6
    rcases h5 with h5 | h5 <;> simp [check_email, h1, h2, h3, h4, h5, h6]

/-- Witness for C3: on a page state showing the registered text together with
a success indicator, a visible password field and the invalid text, the
classifier answers `"registered"` (the text is matched case-insensitively). -/
theorem C3_check_email_priority_witness :
    pageRegistered.failNav = false ∧
    registeredText pageRegistered.content = true ∧
    pageRegistered.successEl = true ∧
    pageRegistered.pwdVisible = true ∧
    invalidText pageRegistered.content = true ∧
    check_email pageRegistered = "registered" :=
  ⟨by decide, by decide, by decide, by decide, by decide,
    C3_check_email_priority.1 pageRegistered (by decide) (by decide)⟩

/-- C4: `parse_entries` implements the parsing rules of §4.1 (split on line
boundaries, trim, skip empty and `#`-lines, candidate address is the part
before the first `:`, record is the full trimmed line, accept iff the
candidate contains `@`, input order preserved — all packaged in the
spec-side parser `spec_parse`), and the concrete round-trip example of the
spec holds. -/
theorem C4_parse_entries_rules :
    (∀ t : String, parse_entries t = spec_parse t) ∧
    parse_entries "a@b.com:pw\n# comment\n\nc@d.com" =
      [("a@b.com", "a@b.com:pw"), ("c@d.com", "c@d.com")] := by
  constructor
  · exact parse_entries_eq_spec
  · decide

/-- C5: `check_email` always returns one of the four labels, never
`"rate_limited"`, and an exception during navigation, element lookup, typing
or page inspection yields `"error"` rather than propagating (the model's
total function returns `"error"` on the exception flag). -/
theorem C5_check_email_labels :
    (∀ s : PageState, check_email s = "registered" ∨ check_email s = "available" ∨
      check_email s = "invalid" ∨ check_email s = "error") ∧
    (∀ s : PageState, check_email s ≠ "rate_limited") ∧
    (∀ s : PageState, s.failNav = true → check_email s = "error") := by
  refine ⟨?_, ?_, ?_⟩
  · intro s
    unfold check_email
    split_ifs <;> simp
  · intro s
    unfold check_email
    split_ifs <;> simp
  · intro s h
    simp [check_email, h]

/-- Witness for C5: the exception path at a concrete page state whose text
would otherwise have matched the registered phrases. -/
theorem C5_check_email_labels_witness :
    pageNavFail.failNav = true ∧ check_email pageNavFail = "error" :=
  ⟨by decide, C5_check_email_labels.2.2 pageNavFail (by decide)⟩

/-- C10: `parse_entries` is a retraction onto its own output: joining the
produced raw lines with newlines and re-parsing yields the same entry
list. -/
theorem C10_parse_retraction (t : String) :
    parse_entries (joinLines ((parse_entries t).map Prod.snd)) = parse_entries t := by
  have h1 : (joinLines ((parse_entries t).map Prod.snd)).data =
      joinLinesL ((parse_entriesL t.data).map Prod.snd) := by
    show joinLinesL (((parse_entries t).map Prod.snd).map String.data) = _
    rw [parse_entries_snd_data]
  have h2 : parse_entries (joinLines ((parse_entries t).map Prod.snd)) =
      (parse_entriesL ((joinLines ((parse_entries t).map Prod.snd)).data)).map
        (fun p => ((⟨p.1⟩ : String), (⟨p.2⟩ : String))) := rfl
  rw [h2, h1, parse_entriesL_retraction]
  rfl

/-- Counterexample to C1 as stated: a failed session initialization does
not produce an all-empty `ResultSet` — `check_emails_batch` propagates the
exception (lines 115–135 are outside the `try` block). -/
theorem C1_launch_failure_counterexample :
    envLaunchFail.launchOk = false ∧
    check_emails_batch envLaunchFail [("a@b.com", "a@b.com")] false 2 = Except.error () :=
  ⟨rfl, rfl⟩

/-- C1 (amended): a failure to initialize the session propagates to the
caller; once initialization succeeded the function always returns normally,
and an exception inside the per-entry loop (e.g. a raising progress
callback on the first entry) yields the partial `ResultSet` accumulated up
to and including the failing entry's own classification. -/
theorem C1_failure_semantics (env : BatchEnv) (entries : List (String × String))
    (hasCb : Bool) (delay : ℚ) :
    (env.launchOk = false →
      check_emails_batch env entries hasCb delay = Except.error ()) ∧
    (env.launchOk = true →
      ∃ out : BatchOutcome, check_emails_batch env entries hasCb delay = Except.ok out) ∧
    (∀ e rest, env.launchOk = true → env.cbFails 0 = true → entries = e :: rest →
      hasCb = true →
      check_emails_batch env entries hasCb delay =
        Except.ok ⟨addResult emptyResults (entryLabel env 0) e.2,
          [(1, rest.length + 1, e.1, entryLabel env 0)], [], true, true⟩) := by
  refine ⟨?_, ?_, ?_⟩
  · intro h
    simp [check_emails_batch, h]
  · intro h
    exact ⟨_, check_emails_batch_ok env entries hasCb delay h⟩
  · intro e rest h1 h2 h3 h4
    subst h3
    subst h4
    obtain ⟨email, line⟩ := e
    simp [check_emails_batch, h1, batchLoop, h2]

/-- Witness for C1 (amended): the three hypotheses discharged at concrete
inputs — launch failure propagates, a smooth launch returns normally, and a
first-entry callback failure returns the one-entry partial result set. -/
theorem C1_failure_semantics_witness :
    check_emails_batch envLaunchFail [] false 2 = Except.error () ∧
    (∃ out : BatchOutcome, check_emails_batch envSmooth [] false 2 = Except.ok out) ∧
    check_emails_batch envCbFail [("a@b.com", "a@b.com:pw")] true 2 =
      Except.ok ⟨addResult emptyResults (entryLabel envCbFail 0) "a@b.com:pw",
        [(1, 1, "a@b.com", entryLabel envCbFail 0)], [], true, true⟩ :=
  ⟨(C1_failure_semantics envLaunchFail [] false 2).1 rfl,
   (C1_failure_semantics envSmooth [] false 2).2.1 rfl,
   (C1_failure_semantics envCbFail [("a@b.com", "a@b.com:pw")] true 2).2.2
     ("a@b.com", "a@b.com:pw") [] rfl rfl rfl rfl⟩

/-- C2: on a fully processed entry list, each of the four buckets holds
exactly the raw lines of the entries classified under it, in input order
(`bucketFrom`), the bucket sizes sum to the number of entries, and a label
outside the three specific buckets is folded into `"error"` by the update
step. -/
theorem C2_buckets_partition (env : BatchEnv) (entries : List (String × String))
    (hasCb : Bool) (delay : ℚ)
    (hlaunch : env.launchOk = true)
    (hcb : ∀ k, k < entries.length → (hasCb && env.cbFails k) = false) :
    (∃ out : BatchOutcome,
      check_emails_batch env entries hasCb delay = Except.ok out ∧
      out.results.registered = bucketFrom env "registered" 0 entries ∧
      out.results.available = bucketFrom env "available" 0 entries ∧
      out.results.invalid = bucketFrom env "invalid" 0 entries ∧
      out.results.error = bucketFrom env "error" 0 entries ∧
      bucketsTotal out.results = entries.length) ∧
    (∀ (r : Results) (label line : String),
      label ≠ "registered" → label ≠ "available" → label ≠ "invalid" →
      addResult r label line = { r with error := r.error ++ [line] }) := by
  have hloop := batchLoop_ok env hasCb delay entries.length entries 0 emptyResults
    (fun k h1 h2 => hcb k (by omega))
  constructor
  · refine ⟨_, check_emails_batch_ok env entries hasCb delay hlaunch, ?_, ?_, ?_, ?_, ?_⟩ <;>
      simp only [hloop] <;> simp [emptyResults, bucketsTotal]
    have := bucketFrom_length_sum env entries 0
    omega
  · intro r label line h1 h2 h3
    simp [addResult, h1, h2, h3]

/-- Witness for C2: a two-entry batch under the always-registered
environment, with no callback. -/
theorem C2_buckets_partition_witness :
    envSmooth.launchOk = true ∧
    (∀ k, k < ([("a@b.com", "a@b.com:pw"), ("c@d.com", "c@d.com")] :
      List (String × String)).length → (false && envSmooth.cbFails k) = false) ∧
    ((∃ out : BatchOutcome,
      check_emails_batch envSmooth [("a@b.com", "a@b.com:pw"), ("c@d.com", "c@d.com")] false 2 =
        Except.ok out ∧
      out.results.registered =
        bucketFrom envSmooth "registered" 0 [("a@b.com", "a@b.com:pw"), ("c@d.com", "c@d.com")] ∧
      out.results.available =
        bucketFrom envSmooth "available" 0 [("a@b.com", "a@b.com:pw"), ("c@d.com", "c@d.com")] ∧
      out.results.invalid =
        bucketFrom envSmooth "invalid" 0 [("a@b.com", "a@b.com:pw"), ("c@d.com", "c@d.com")] ∧
      out.results.error =
        bucketFrom envSmooth "error" 0 [("a@b.com", "a@b.com:pw"), ("c@d.com", "c@d.com")] ∧
      bucketsTotal out.results = 2) ∧
    (∀ (r : Results) (label line : String),
      label ≠ "registered" → label ≠ "available" → label ≠ "invalid" →
      addResult r label line = { r with error := r.error ++ [line] })) :=
  ⟨rfl, fun _ _ => rfl,
   C2_buckets_partition envSmooth [("a@b.com", "a@b.com:pw"), ("c@d.com", "c@d.com")]
     false 2 rfl (fun _ _ => rfl)⟩

/-- C6: with a callback supplied and no whole-batch failure, the callback is
invoked exactly once per entry, in input order, with
`(1-based index, total, address, label)` (`callsFrom`), and the indices are
exactly `1, 2, …, total` in increasing order. -/
theorem C6_progress_callback (env : BatchEnv) (entries : List (String × String))
    (delay : ℚ)
    (hlaunch : env.launchOk = true)
    (hcb : ∀ k, k < entries.length → env.cbFails k = false) :
    ∃ out : BatchOutcome,
      check_emails_batch env entries true delay = Except.ok out ∧
      out.calls = callsFrom env entries.length 0 entries ∧
      out.calls.length = entries.length ∧
      out.calls.map (fun c => c.1) = List.range' 1 entries.length := by
  have hloop := batchLoop_ok env true delay entries.length entries 0 emptyResults
    (fun k h1 h2 => by simp [hcb k (by omega)])
  refine ⟨_, check_emails_batch_ok env entries true delay hlaunch, ?_, ?_, ?_⟩ <;>
    simp only [hloop] <;> simp
  · exact callsFrom_length env entries.length entries 0
  · have := callsFrom_map_fst env entries.length entries 0
    simpa using this

/-- Witness for C6: a two-entry batch with a never-failing callback. -/
theorem C6_progress_callback_witness :
    envSmooth.launchOk = true ∧
    (∀ k, k < ([("a@b.com", "a@b.com"), ("c@d.com", "c@d.com")] :
      List (String × String)).length → envSmooth.cbFails k = false) ∧
    (∃ out : BatchOutcome,
      check_emails_batch envSmooth [("a@b.com", "a@b.com"), ("c@d.com", "c@d.com")] true 2 =
        Except.ok out ∧
      out.calls = callsFrom envSmooth 2 0 [("a@b.com", "a@b.com"), ("c@d.com", "c@d.com")] ∧
      out.calls.length = 2 ∧
      out.calls.map (fun c => c.1) = List.range' 1 2) :=
  ⟨rfl, fun _ _ => rfl,
   C6_progress_callback envSmooth [("a@b.com", "a@b.com"), ("c@d.com", "c@d.com")] 2
     rfl (fun _ _ => rfl)⟩

/-- C7: on a completed batch there is exactly one sleep after every entry
except the last (`sleepsFrom`, of length `total - 1`), each equal to the
base delay plus the drawn jitter; when every drawn jitter lies in
`[0.5, 1.5)` every inter-item delay is at least the base delay. -/
theorem C7_pacing (env : BatchEnv) (entries : List (String × String))
    (hasCb : Bool) (delay : ℚ)
    (hlaunch : env.launchOk = true)
    (hcb : ∀ k, k < entries.length → (hasCb && env.cbFails k) = false)
    (hjit : ∀ k, 1/2 ≤ env.jitter k ∧ env.jitter k < 3/2) :
    ∃ out : BatchOutcome,
      check_emails_batch env entries hasCb delay = Except.ok out ∧
      out.sleeps = sleepsFrom env delay entries.length 0 entries ∧
      out.sleeps.length = entries.length - 1 ∧
      ∀ s ∈ out.sleeps, delay ≤ s := by
  have hloop := batchLoop_ok env hasCb delay entries.length entries 0 emptyResults
    (fun k h1 h2 => hcb k (by omega))
  refine ⟨_, check_emails_batch_ok env entries hasCb delay hlaunch, ?_, ?_, ?_⟩ <;>
    simp only [hloop]
  · exact sleepsFrom_length env delay entries 0 entries.length (by omega)
  · intro s hs
    obtain ⟨k, hk⟩ := sleepsFrom_mem env delay entries.length entries 0 s hs
    have := (hjit k).1
    rw [hk]
    linarith

/-- Witness for C7: a two-entry batch with jitter constantly 1. -/
theorem C7_pacing_witness :
    envSmooth.launchOk = true ∧
    (∀ k, (1 : ℚ)/2 ≤ envSmooth.jitter k ∧ envSmooth.jitter k < 3/2) ∧
    (∃ out : BatchOutcome,
      check_emails_batch envSmooth [("a@b.com", "a@b.com"), ("c@d.com", "c@d.com")] false 2 =
        Except.ok out ∧
      out.sleeps = sleepsFrom envSmooth 2 2 0 [("a@b.com", "a@b.com"), ("c@d.com", "c@d.com")] ∧
      out.sleeps.length = 1 ∧
      ∀ s ∈ out.sleeps, (2 : ℚ) ≤ s) :=
  ⟨rfl, fun k => ⟨by norm_num [envSmooth], by norm_num [envSmooth]⟩,
   C7_pacing envSmooth [("a@b.com", "a@b.com"), ("c@d.com", "c@d.com")] false 2
     rfl (fun _ _ => rfl) (fun _ => ⟨by norm_num [envSmooth], by norm_num [envSmooth]⟩)⟩

/-- C8: once the session is initialized the loop's `try/finally` guarantees
teardown — `check_emails_batch` returns normally with `browserClosed` on
every exit path, with no assumption on callback failures (so also when an
exception is raised inside the loop). -/
theorem C8_teardown (env : BatchEnv) (entries : List (String × String))
    (hasCb : Bool) (delay : ℚ) (hlaunch : env.launchOk = true) :
    ∃ out : BatchOutcome,
      check_emails_batch env entries hasCb delay = Except.ok out ∧
      out.browserClosed = true :=
  ⟨_, check_emails_batch_ok env entries hasCb delay hlaunch, rfl⟩

/-- Witness for C8: teardown on the exception path — the callback raises on
the very first entry, yet the call returns normally with the browser
closed. -/
theorem C8_teardown_witness :
    envCbFail.launchOk = true ∧
    (∃ out : BatchOutcome,
      check_emails_batch envCbFail [("a@b.com", "a@b.com")] true 2 = Except.ok out ∧
      out.browserClosed = true) :=
  ⟨rfl, C8_teardown envCbFail [("a@b.com", "a@b.com")] true 2 rfl⟩

/-- C9: an empty entry list under a successfully initialized session yields
exactly the four empty buckets, no callback invocation and no sleep. -/
theorem C9_empty_batch (env : BatchEnv) (hasCb : Bool) (delay : ℚ)
    (hlaunch : env.launchOk = true) :
    check_emails_batch env [] hasCb delay =
      Except.ok ⟨⟨[], [], [], []⟩, [], [], false, true⟩ := by
  simp [check_emails_batch, hlaunch, batchLoop, emptyResults]

/-- Witness for C9: the empty batch under the smooth environment. -/
theorem C9_empty_batch_witness :
    envSmooth.launchOk = true ∧
    check_emails_batch envSmooth [] true 2 =
      Except.ok ⟨⟨[], [], [], []⟩, [], [], false, true⟩ :=
  ⟨rfl, C9_empty_batch envSmooth true 2 rfl⟩

end GithubChecker
